import Mathlib

/-
  Formal model of the Traffic Control classifier API core
  (net/sched/cls_api.c) and of the mlx5 sysfs accessory handlers
  (drivers/net/ethernet/mellanox/mlx5/core/en_sysfs.c).

  The C sources are shallowly embedded: the priority-ordered filter list of
  a chain becomes a Lean list of `Proto` records, cursor pointers
  (struct tcf_chain_info) become list indices, u32 arithmetic is Nat with
  explicit masking, and C `int` return values become `Int` (negative errno
  on failure).  External collaborators (classifier ops capabilities,
  drivers) are modelled as function-valued parameters, mirroring the ops
  tables the core dispatches through.
-/

/-! ## Common constants (uapi headers used by cls_api.c) -/

/-- errno: invalid argument. -/
def EINVAL : Int := 22

/-- errno: no such entity. -/
def ENOENT : Int := 2

/-- errno: try again. -/
def EAGAIN : Int := 11

/-- errno: operation not supported. -/
def EOPNOTSUPP : Int := 95

/-- errno: numerical result out of range. -/
def ERANGE : Int := 34

/-- TC_H_MAJ_MASK from uapi/linux/pkt_sched.h. -/
def TC_H_MAJ_MASK : Nat := 0xFFFF0000

/-- TC_H_MIN_MASK from uapi/linux/pkt_sched.h. -/
def TC_H_MIN_MASK : Nat := 0x0000FFFF

/-- TC_H_MAJ(h) = h & TC_H_MAJ_MASK. -/
def TC_H_MAJ (h : Nat) : Nat := h &&& TC_H_MAJ_MASK

/-- TC_H_MIN(h) = h & TC_H_MIN_MASK. -/
def TC_H_MIN (h : Nat) : Nat := h &&& TC_H_MIN_MASK

/-- TC_H_MAKE(maj, mi) = (maj & TC_H_MAJ_MASK) | (mi & TC_H_MIN_MASK). -/
def TC_H_MAKE (maj mi : Nat) : Nat :=
  (maj &&& TC_H_MAJ_MASK) ||| (mi &&& TC_H_MIN_MASK)

/-- TC_ACT_UNSPEC from uapi/linux/pkt_cls.h. -/
def TC_ACT_UNSPEC : Int := -1

/-- TC_ACT_RECLASSIFY from uapi/linux/pkt_cls.h. -/
def TC_ACT_RECLASSIFY : Int := 1

/-- TC_ACT_SHOT from uapi/linux/pkt_cls.h. -/
def TC_ACT_SHOT : Int := 2

/-- __TC_ACT_EXT_SHIFT = 28, TC_ACT_GOTO_CHAIN = __TC_ACT_EXT(2) = 2 << 28. -/
def TC_ACT_GOTO_CHAIN : Nat := 0x20000000

/-- TC_ACT_EXT_VAL_MASK = (1 << __TC_ACT_EXT_SHIFT) - 1. -/
def TC_ACT_EXT_VAL_MASK : Nat := 0x0FFFFFFF

/-- A C `int` reinterpreted as its 32-bit two's complement bit pattern. -/
def uint32 (i : Int) : Nat := (i % 4294967296).toNat

/-- TC_ACT_EXT_CMP(combined, opcode) = ((combined & ~TC_ACT_EXT_VAL_MASK) == opcode);
    the bitwiseAnd is performed on the 32-bit pattern of the (signed) int. -/
def TC_ACT_EXT_CMP (combined : Int) (opcode : Nat) : Bool :=
  uint32 combined &&& (0xFFFFFFFF ^^^ TC_ACT_EXT_VAL_MASK) == opcode

/-- ETH_P_ALL from uapi/linux/if_ether.h.  Protocol numbers are modelled as
    plain naturals in one fixed byte order, so htons/ntohs conversions,
    which are applied uniformly on both sides of every comparison in the
    source, are dropped. -/
def ETH_P_ALL : Nat := 3

/-! ## Proto and the per-chain priority-ordered filter list

A `struct tcf_proto` as seen by the chain-level list operations.  The `id`
field models the node's identity (pointer equality in C); `kind` models the
classifier kind name (`tp->ops->kind`) as a numeric code. -/

structure Proto where
  id : Nat
  prio : Nat
  protocol : Nat
  kind : Nat
  deriving DecidableEq, Repr

/-- The fields of `struct tcf_chain` the filter-list operations touch:
    the `flushing` flag and the `filter_chain` list (ordered ascending by
    prio). -/
structure ChainSt where
  flushing : Bool
  filter_chain : List Proto
  deriving DecidableEq, Repr

/-- The walk of tcf_chain_tp_find, carrying the running cursor position
    `i` (the number of links already traversed, i.e. the list index that
    `chain_info->pprev` points at).  Returns `.error (-EINVAL)` exactly
    where the C code returns ERR_PTR(-EINVAL), and otherwise the cursor
    together with the proto found at equal priority (if any). -/
def tcf_chain_tp_find_go (protocol prio : Nat) (prio_allocate : Bool) :
    List Proto → Nat → Except Int (Nat × Option Proto)
  | [], i => .ok (i, none)
  | tp :: rest, i =>
    if tp.prio ≥ prio then
      if tp.prio = prio then
        if prio_allocate ∨ (tp.protocol ≠ protocol ∧ protocol ≠ 0) then
          .error (-EINVAL)
        else
          .ok (i, some tp)
      else
        .ok (i, none)
    else
      tcf_chain_tp_find_go protocol prio prio_allocate rest (i + 1)

/-- tcf_chain_tp_find: walk the chain until the first proto with
    `tp->prio >= prio`. -/
def tcf_chain_tp_find (chain : List Proto) (protocol prio : Nat)
    (prio_allocate : Bool) : Except Int (Nat × Option Proto) :=
  tcf_chain_tp_find_go protocol prio prio_allocate chain 0

/-- tcf_chain_tp_insert: fails with -EAGAIN when the chain is flushing,
    otherwise links `tp` in at the cursor position.  (The chain0
    head-change observer broadcast has no effect on the list state and is
    not modelled.) -/
def tcf_chain_tp_insert (c : ChainSt) (cursor : Nat) (tp : Proto) :
    Except Int ChainSt :=
  if c.flushing then
    .error (-EAGAIN)
  else
    .ok { c with filter_chain := c.filter_chain.insertIdx cursor tp }

/-- tcf_chain_tp_remove: unlink the proto at the cursor position
    (`*chain_info->pprev = chain_info->next`). -/
def tcf_chain_tp_remove (c : ChainSt) (cursor : Nat) : ChainSt :=
  { c with filter_chain := c.filter_chain.eraseIdx cursor }

/-- tcf_chain_flush: atomically swap the filter list to empty and set the
    flushing flag. -/
def tcf_chain_flush (c : ChainSt) : ChainSt :=
  { c with flushing := true, filter_chain := [] }

/-- tcf_chain_tp_delete_empty: re-find `tp` by identity under the chain
    lock; if it is still linked and tcf_proto_check_delete finds it empty
    (the `isEmpty` capability models the ops->walk emptiness check),
    unlink it; otherwise leave the chain unchanged. -/
def tcf_chain_tp_delete_empty (c : ChainSt) (tp : Proto)
    (isEmpty : Nat → Bool) : ChainSt :=
  match c.filter_chain.findIdx? (fun p => p.id == tp.id) with
  | none => c
  | some i =>
    if isEmpty tp.id then
      { c with filter_chain := c.filter_chain.eraseIdx i }
    else
      c

/-- Decidable equality for `Except`, used to evaluate results on concrete
    inputs. -/
instance exceptDecEq {ε α : Type} [DecidableEq ε] [DecidableEq α] :
    DecidableEq (Except ε α) := fun a b =>
  match a, b with
  | .error e, .error f =>
    if h : e = f then .isTrue (by rw [h]) else .isFalse (by intro hc; cases hc; exact h rfl)
  | .error _, .ok _ => .isFalse (by intro hc; cases hc)
  | .ok _, .error _ => .isFalse (by intro hc; cases hc)
  | .ok x, .ok y =>
    if h : x = y then .isTrue (by rw [h]) else .isFalse (by intro hc; cases hc; exact h rfl)

/-- Result of tcf_chain_tp_insert_unique: the returned proto (or error),
    the new chain state, and whether the caller's new proto was destroyed
    (tcf_proto_destroy(tp_new)). -/
structure InsertUniqueOut where
  res : Except Int Proto
  chain : ChainSt
  destroyed_new : Bool
  deriving DecidableEq, Repr

/-- tcf_chain_tp_insert_unique: under the chain lock, re-run the find; if a
    proto already exists at this (prio, protocol) the new one is destroyed
    and the existing one returned; otherwise insert at the cursor (which
    fails with -EAGAIN when the chain is flushing, again destroying the
    new proto). -/
def tcf_chain_tp_insert_unique (c : ChainSt) (tp_new : Proto)
    (protocol prio : Nat) : InsertUniqueOut :=
  match tcf_chain_tp_find c.filter_chain protocol prio false with
  | .error e => ⟨.error e, c, true⟩
  | .ok (_, some tp) => ⟨.ok tp, c, true⟩
  | .ok (i, none) =>
    match tcf_chain_tp_insert c i tp_new with
    | .error e => ⟨.error e, c, true⟩
    | .ok c2 => ⟨.ok tp_new, c2, false⟩

/-- tcf_auto_prio: `first = TC_H_MAKE(0xC0000000U, 0U); if (tp) first =
    tp->prio - 1; return TC_H_MAJ(first);` with u32 wrap-around on the
    decrement. -/
def tcf_auto_prio (tp : Option Proto) : Nat :=
  match tp with
  | none => TC_H_MAJ (TC_H_MAKE 0xC0000000 0)
  | some t => TC_H_MAJ ((t.prio + 0xFFFFFFFF) % 0x100000000)

/-- The auto-priority allocation path of tc_new_tfilter: with prio == 0 and
    NLM_F_CREATE the handler runs the find with the placeholder priority
    TC_H_MAKE(0x80000000U, 0U) and prio_allocate = true, and on the create
    path computes `prio = tcf_auto_prio(tcf_chain_tp_prev(chain,
    &chain_info))`, i.e. tcf_auto_prio of the proto the cursor stopped at. -/
def tc_new_tfilter_auto_prio (chain : List Proto) (protocol : Nat) :
    Except Int Nat :=
  match tcf_chain_tp_find chain protocol (TC_H_MAKE 0x80000000 0) true with
  | .error e => .error e
  | .ok (i, _) => .ok (tcf_auto_prio chain[i]?)

/-- The priority-monotonicity invariant of a filter chain: traversal yields
    strictly increasing prio values. -/
def PrioSorted (l : List Proto) : Prop :=
  List.Pairwise (fun a b => a.prio < b.prio) l

/-! ## The packet classification dispatcher (tcf_classify)

A packet carries its wire protocol and the optional persisted chain hint
(the TC_SKB_EXT side-band; `none` models an absent extension). -/

structure Packet where
  protocol : Nat
  extChain : Option Nat
  deriving DecidableEq, Repr

/-- A `struct tcf_proto` as seen by the dispatcher.  `classify` models the
    `tp->classify` ops call: it returns the classifier verdict together
    with the `tcf_result` fields the dispatcher reads on GotoChain
    (`res->goto_tp` as the target filter list, and `res->goto_index`).
    `blockIndex` models `tp->chain->block->index`, read by the
    rate-limited notice. -/
inductive ProtoC where
  | mk (protocol : Nat) (prio : Nat) (blockIndex : Nat)
      (classify : Packet → Int × List ProtoC × Nat) : ProtoC

/-- The wire protocol of a dispatcher proto. -/
def ProtoC.protocol : ProtoC → Nat
  | .mk p _ _ _ => p

/-- The priority of a dispatcher proto. -/
def ProtoC.prio : ProtoC → Nat
  | .mk _ p _ _ => p

/-- The owning block's index of a dispatcher proto. -/
def ProtoC.blockIndex : ProtoC → Nat
  | .mk _ _ b _ => b

/-- The classify ops call of a dispatcher proto. -/
def ProtoC.classify : ProtoC → Packet → Int × List ProtoC × Nat
  | .mk _ _ _ c => c

/-- max_reclassify_loop in tcf_classify. -/
def max_reclassify_loop : Nat := 4

/-- The observable outcome of one tcf_classify call: the returned action
    code, the rate-limited notice (block index, prio & 0xffff, protocol)
    if one was emitted, the number of `tp->classify` invocations, the
    number of walk restarts taken (jumps back to the `reclassify` label
    via `reset`), and the final persisted chain hint on the packet. -/
structure COut where
  action : Int
  notice : Option (Nat × Nat × Nat)
  calls : Nat
  restarts : Nat
  hint : Option Nat
  deriving DecidableEq, Repr

/-- The walk of tcf_classify from the `reclassify` label.  `orig` is
    `orig_tp` (the head the Reclassify verdict restarts from), `limit` the
    restart counter, `hint` the current TC_SKB_EXT chain value, `tps` the
    remaining protos of the walk.  Invocation counts and the emitted
    notice are threaded through the result. -/
def tcf_classify_go (pkt : Packet) (orig : List ProtoC) (compat : Bool)
    (limit : Nat) (hint : Option Nat) (tps : List ProtoC) : COut :=
  match tps with
  | [] => ⟨TC_ACT_UNSPEC, none, 0, 0, hint⟩
  | tp :: rest =>
    if tp.protocol ≠ pkt.protocol ∧ tp.protocol ≠ ETH_P_ALL then
      tcf_classify_go pkt orig compat limit hint rest
    else
      -- err = tp->classify(skb, tp, res); the pure call is written inline
      if (tp.classify pkt).1 = TC_ACT_RECLASSIFY ∧ compat = false then
        if limit ≥ max_reclassify_loop then
          ⟨TC_ACT_SHOT, some (tp.blockIndex, tp.prio &&& 0xFFFF, tp.protocol),
            1, 0, hint⟩
        else
          let out := tcf_classify_go pkt orig compat (limit + 1) hint orig
          ⟨out.action, out.notice, out.calls + 1, out.restarts + 1, out.hint⟩
      else if TC_ACT_EXT_CMP (tp.classify pkt).1 TC_ACT_GOTO_CHAIN then
        -- skb_ext_add persists res->goto_index as the packet's chain hint
        if limit ≥ max_reclassify_loop then
          ⟨TC_ACT_SHOT, some (tp.blockIndex, tp.prio &&& 0xFFFF, tp.protocol),
            1, 0, some (tp.classify pkt).2.2⟩
        else
          let out := tcf_classify_go pkt orig compat (limit + 1)
            (some (tp.classify pkt).2.2) (tp.classify pkt).2.1
          ⟨out.action, out.notice, out.calls + 1, out.restarts + 1, out.hint⟩
      else if (tp.classify pkt).1 ≥ 0 then
        ⟨(tp.classify pkt).1, none, 1, 0, hint⟩
      else
        let out := tcf_classify_go pkt orig compat limit hint rest
        ⟨out.action, out.notice, out.calls + 1, out.restarts, out.hint⟩
termination_by (max_reclassify_loop + 1 - limit, tps.length)
decreasing_by
  all_goals simp_wf
  · exact Prod.Lex.right _ (by omega)
  · exact Prod.Lex.left _ _ (by omega)
  · exact Prod.Lex.left _ _ (by omega)
  · exact Prod.Lex.right _ (by omega)

/-- The ingress block consulted by the TC_SKB_EXT prologue of
    tcf_classify: its index and its chains (index, filter list). -/
structure BlockC where
  index : Nat
  chains : List (Nat × List ProtoC)

/-- tcf_classify: the TC_SKB_EXT prologue (jump to the hinted chain's
    filter head in the device's ingress block when the packet carries a
    nonzero chain hint, falling through to `tp` on any miss) followed by
    the walk from the `reclassify` label.  `orig_tp` is the `tp` argument,
    captured before the prologue. -/
def tcf_classify (pkt : Packet) (tp : List ProtoC) (compat : Bool)
    (ingressBlock : Option BlockC) : COut :=
  let start :=
    match pkt.extChain with
    | some c =>
      if c ≠ 0 then
        match ingressBlock with
        | none => tp
        | some b =>
          match b.chains.lookup c with
          | none => tp
          | some fc => fc
      else tp
    | none => tp
  tcf_classify_go pkt tp compat 0 pkt.extChain start

/-- The scenario classifier of S3: a proto whose classify call always
    returns Reclassify, installed at (prio p, protocol pr) in the block
    with index b. -/
def reclassifyProto (b p pr : Nat) : ProtoC :=
  ProtoC.mk pr p b (fun _ => (TC_ACT_RECLASSIFY, [], 0))

/-! ## Offload playback (tcf_block_playback_offloads)

A proto as seen by the offload bridge: its identity, whether its ops table
provides a `reoffload` callback, and the callback's behaviour
(`reoffloadErr add` is the error code the driver callback chain returns
for a BIND (`add = true`) or UNBIND (`add = false`) replay of this
proto). -/

structure ProtoR where
  id : Nat
  hasReoffload : Bool
  reoffloadErr : Bool → Int

/-- A chain as walked by the playback loop: `__tcf_get_next_chain` skips
    action-only chains, so their visibility enters the walk. -/
structure OffChain where
  actsOnly : Bool
  protos : List ProtoR

/-- An invocation record of `ops.reoffload`: the proto's id and the `add`
    flag it was invoked with. -/
abbrev ReoffloadTrace := List (Nat × Bool)

/-- tcf_block_playback_offloads with add = false: every reoffload-capable
    proto of every user-visible chain is invoked with add = false; errors
    are ignored (`err && add` is false) and the EOPNOTSUPP branch needs
    `add`.  Returns the invocation trace in walk order. -/
def playback_remove_protos : List ProtoR → ReoffloadTrace
  | [] => []
  | tp :: tps =>
    if tp.hasReoffload then
      (tp.id, false) :: playback_remove_protos tps
    else
      playback_remove_protos tps

/-- The chain loop of the add = false playback. -/
def playback_remove (chains : List OffChain) : ReoffloadTrace :=
  match chains with
  | [] => []
  | ch :: rest =>
    if ch.actsOnly then
      playback_remove rest
    else
      playback_remove_protos ch.protos ++ playback_remove rest

/-- The proto loop of tcf_block_playback_offloads with add = true over one
    chain.  On a reoffload error (or on a reoffload-incapable proto while
    offload is in use) the whole-block add = false playback is replayed
    (the `err_playback_remove` recursive call) and the error returned
    together with the trace accumulated so far. -/
def playback_add_protos (block : List OffChain) (offload_in_use : Bool) :
    List ProtoR → Int × ReoffloadTrace
  | [] => (0, [])
  | tp :: tps =>
    if tp.hasReoffload then
      let e := tp.reoffloadErr true
      if e ≠ 0 then
        (e, (tp.id, true) :: playback_remove block)
      else
        let out := playback_add_protos block offload_in_use tps
        (out.1, (tp.id, true) :: out.2)
    else if offload_in_use then
      (-EOPNOTSUPP, playback_remove block)
    else
      playback_add_protos block offload_in_use tps

/-- The chain loop of the add = true playback. -/
def playback_add (block : List OffChain) (offload_in_use : Bool) :
    List OffChain → Int × ReoffloadTrace
  | [] => (0, [])
  | ch :: rest =>
    if ch.actsOnly then
      playback_add block offload_in_use rest
    else
      let out := playback_add_protos block offload_in_use ch.protos
      if out.1 ≠ 0 then
        out
      else
        let out2 := playback_add block offload_in_use rest
        (out2.1, out.2 ++ out2.2)

/-- tcf_block_playback_offloads: the C function is parameterized by `add`;
    its add = false instantiation never takes the error unwind (the guard
    is `err && add`), so the two instantiations are the two loops above. -/
def tcf_block_playback_offloads (block : List OffChain) (add : Bool)
    (offload_in_use : Bool) : Int × ReoffloadTrace :=
  if add then
    playback_add block offload_in_use block
  else
    (0, playback_remove block)

/-- The proto ids the playback walk visits, in walk order: the protos of
    every chain that is not action-only. -/
def visibleProtoIds : List OffChain → List Nat
  | [] => []
  | ch :: rest =>
    if ch.actsOnly then
      visibleProtoIds rest
    else
      ch.protos.map (fun tp => tp.id) ++ visibleProtoIds rest

/-! ## Chain visibility (action-only chains) -/

/-- A `struct tcf_chain` as seen by the block-level chain list walks:
    index, reference counts, template kind pin. -/
structure ChainView where
  index : Nat
  refcnt : Nat
  action_refcnt : Nat
  explicitly_created : Bool
  deriving DecidableEq, Repr

/-- tcf_chain_held_by_acts_only: `chain->refcnt == chain->action_refcnt`. -/
def tcf_chain_held_by_acts_only (c : ChainView) : Bool :=
  c.refcnt == c.action_refcnt

/-- The skip loop of __tcf_get_next_chain: from position `i` in the
    block's chain list, advance while the chain is held by actions only. -/
def chain_skip_acts_only (chains : List ChainView) (i : Nat) : Option Nat :=
  if h : i < chains.length then
    if tcf_chain_held_by_acts_only (chains.get ⟨i, h⟩) then
      chain_skip_acts_only chains (i + 1)
    else
      some i
  else
    none
termination_by chains.length - i
decreasing_by
  simp_wf
  omega

/-- __tcf_get_next_chain: position of the next user-visible chain after
    the cursor (`none` starts from the head of the list). -/
def tcf_get_next_chain_idx (chains : List ChainView) (cur : Option Nat) :
    Option Nat :=
  match cur with
  | none => chain_skip_acts_only chains 0
  | some i => chain_skip_acts_only chains (i + 1)

/-- The selection loop of tc_dump_chain: returns the chains handed to
    tc_chain_fill_node, given the optional TCA_CHAIN filter, the resume
    cursor `index_start` and the running `index` counter (message-size
    truncation is not modelled: every fill is assumed to succeed). -/
def tc_dump_chain_sel (fidx : Option Nat) (index_start : Nat) :
    List ChainView → Nat → List ChainView
  | [], _ => []
  | c :: rest, index =>
    if Option.any (fun f => f != c.index) fidx then
      tc_dump_chain_sel fidx index_start rest index
    else if index < index_start then
      tc_dump_chain_sel fidx index_start rest (index + 1)
    else if tcf_chain_held_by_acts_only c then
      tc_dump_chain_sel fidx index_start rest index
    else
      c :: tc_dump_chain_sel fidx index_start rest (index + 1)

/-- tcf_chain_lookup: find the chain with the given index in the block's
    chain list. -/
def tcf_chain_lookup (chains : List ChainView) (chain_index : Nat) :
    Option ChainView :=
  chains.find? (fun c => c.index == chain_index)

/-- The message types handled by tc_ctl_chain. -/
inductive ChainMsg where
  | newChain
  | delChain
  | getChain
  deriving DecidableEq, Repr

/-- The chain-resolution phase of tc_ctl_chain (the block-locked section):
    on RTM_NEWCHAIN an action-only chain is promoted by taking a
    reference and an existing visible chain is -EEXIST; on
    RTM_DELCHAIN/RTM_GETCHAIN a missing or action-only chain is refused
    with -EINVAL ("Cannot find specified filter chain").  Returns the
    resolved chain and the updated chain list (unchanged on error). -/
def tc_ctl_chain_resolve (msg : ChainMsg) (chains : List ChainView)
    (chain_index : Nat) (create_flag : Bool) :
    Except Int ChainView × List ChainView :=
  match tcf_chain_lookup chains chain_index with
  | some chain =>
    match msg with
    | .newChain =>
      if tcf_chain_held_by_acts_only chain then
        -- promote to explicit: tcf_chain_hold
        (.ok chain,
          chains.map (fun c =>
            if c.index == chain_index then { c with refcnt := c.refcnt + 1 } else c))
      else
        (.error (-17), chains)       -- -EEXIST "Filter chain already exists"
    | _ =>
      if tcf_chain_held_by_acts_only chain then
        (.error (-EINVAL), chains)
      else
        (.ok chain,
          chains.map (fun c =>
            if c.index == chain_index then { c with refcnt := c.refcnt + 1 } else c))
  | none =>
    match msg with
    | .newChain =>
      if create_flag then
        (.ok ⟨chain_index, 1, 0, false⟩,
          chains ++ [⟨chain_index, 1, 0, false⟩])  -- tcf_chain_create
      else
        (.error (-ENOENT), chains)
    | _ => (.error (-EINVAL), chains)

/-! ## DelFilter (tc_del_tfilter) -/

/-- A chain of the block as seen by tc_del_tfilter: its index and its
    filter-list state. -/
structure ChainD where
  index : Nat
  st : ChainSt
  deriving DecidableEq, Repr

/-- The classifier-ops capabilities tc_del_tfilter dispatches through,
    keyed by proto identity: `get` models `tp->ops->get(tp, handle) !=
    NULL`, `del` models `tp->ops->delete(tp, fh, &last, ...)` returning
    (error, last), `isEmpty` models the ops->walk emptiness check of
    tcf_proto_check_delete. -/
structure OpsEnv where
  get : Nat → Nat → Bool
  del : Nat → Nat → Int × Bool
  isEmpty : Nat → Bool

/-- Lookup of tcf_chain_get(block, chain_index, false): plain chain-list
    search, no creation. -/
def lookupChainD (block : List ChainD) (chain_index : Nat) : Option ChainD :=
  block.find? (fun cd => cd.index == chain_index)

/-- Replace the state of the chain with the given index. -/
def updateChainD (block : List ChainD) (chain_index : Nat) (st : ChainSt) :
    List ChainD :=
  block.map (fun cd => if cd.index == chain_index then { cd with st := st } else cd)

/-- tc_del_tfilter, from the parsed message to the verdict: inputs are the
    header word `tcm_info` = (prio << 16) | protocol, the handle, the
    optional TCA_KIND and TCA_CHAIN attributes, the ops capabilities and
    the block's chains.  Capability and block resolution are assumed to
    have succeeded (their failures precede everything modelled here).
    Returns the netlink error code and the block's new chain state. -/
def tc_del_tfilter (env : OpsEnv) (block : List ChainD)
    (tcm_info tcm_handle : Nat) (tca_kind : Option Nat)
    (tca_chain : Option Nat) : Int × List ChainD :=
  -- protocol = TC_H_MIN(t->tcm_info) and prio = TC_H_MAJ(t->tcm_info);
  -- the locals are written inline below
  if TC_H_MAJ tcm_info = 0 ∧
      (TC_H_MIN tcm_info ≠ 0 ∨ tcm_handle ≠ 0 ∨ tca_kind.isSome) then
    (-ENOENT, block)      -- "Cannot flush filters with protocol, handle or kind set"
  else if tca_chain.getD 0 > TC_ACT_EXT_VAL_MASK then
    (-EINVAL, block)
  else
    match lookupChainD block (tca_chain.getD 0) with
    | none =>
      -- "User requested flush on non-existent chain. Nothing to do,
      --  so just return success."
      if TC_H_MAJ tcm_info = 0 then (0, block) else (-ENOENT, block)
    | some cd =>
      if TC_H_MAJ tcm_info = 0 then
        (0, updateChainD block (tca_chain.getD 0) (tcf_chain_flush cd.st))
      else
        match tcf_chain_tp_find cd.st.filter_chain (TC_H_MIN tcm_info)
            (TC_H_MAJ tcm_info) false with
        | .error e => (e, block)
        | .ok (_, none) => (-ENOENT, block)
        | .ok (i, some tp) =>
          if Option.any (fun k => k != tp.kind) tca_kind then
            (-EINVAL, block)  -- "Specified filter kind does not match existing one"
          else if tcm_handle = 0 then
            (0, updateChainD block (tca_chain.getD 0) (tcf_chain_tp_remove cd.st i))
          else if env.get tp.id tcm_handle = false then
            (-ENOENT, block)  -- "Specified filter handle not found"
          else if (env.del tp.id tcm_handle).1 ≠ 0 then
            ((env.del tp.id tcm_handle).1, block)
          else if (env.del tp.id tcm_handle).2 then
            (0, updateChainD block (tca_chain.getD 0)
              (tcf_chain_tp_delete_empty cd.st tp env.isEmpty))
          else
            (0, block)

/-! ## mlx5 sysfs handlers (en_sysfs.c) -/

/-- prio_hp_num_store: `parsed` is the sscanf result (none when it did not
    parse exactly one integer), `num_prio_hp` the current
    `tc->num_prio_hp`, `max_hp` the MLX5E_MAX_HP_PRIO bound,
    `enable_err`/`disable_err` the results of the
    mlx5e_prio_hairpin_mode_enable/disable driver calls, `count` the
    write size returned on success. -/
def prio_hp_num_store (max_hp : Int) (parsed : Option Int)
    (num_prio_hp : Int) (enable_err disable_err : Int) (count : Int) : Int :=
  match parsed with
  | none => -EINVAL
  | some num_hp =>
    if num_hp < 0 ∨ num_hp > max_hp then
      -EINVAL
    else if num_hp ≠ 0 ∧ num_prio_hp = 0 then
      (if enable_err ≠ 0 then enable_err else count)
    else if num_hp = 0 ∧ num_prio_hp ≠ 0 then
      (if disable_err ≠ 0 then disable_err else count)
    else
      -EINVAL

/-- rate_store: returns the handler result and, when the `if (err)` test
    was reached, the value the local `err` held there (`some none` means
    the test was reached with `err` never assigned: the device was not
    opened, so the only assignment `err = mlx5e_set_prio_hairpin_rate(...)`
    did not execute).  The first component is `none` exactly when the
    return value is not defined by any prior assignment of `err`. -/
def rate_store (parsed : Option Int) (g_rate : Int) (rl_supported : Bool)
    (rl_in_range : Int → Bool) (opened : Bool) (set_rate_err : Int)
    (count : Int) : Option Int × Option (Option Int) :=
  match parsed with
  | none => (some (-EINVAL), none)
  | some user_rate =>
    if user_rate = g_rate then
      (some count, none)            -- "nothing to do"
    else if rl_supported = false then
      (some (-EINVAL), none)
    else
      -- rate = user_rate << 10 (Mb/sec to Kb/sec), written inline
      if user_rate * 1024 ≠ 0 ∧ rl_in_range (user_rate * 1024) = false then
        (some (-ERANGE), none)
      else if opened then
        -- err = mlx5e_set_prio_hairpin_rate(...); if (err) return err;
        (some (if set_rate_err ≠ 0 then set_rate_err else count),
          some (some set_rate_err))
      else
        -- int err; was never assigned: the `if (err)` test reads an
        -- uninitialized local and the returned value is undefined
        (none, some none)

/-! ## Helper lemmas on the filter-chain find walk -/

/-- The find walk never stops while priorities are below the requested
    one: on a list of all-smaller priorities it runs to the end and
    returns the end-of-list gap cursor. -/
theorem find_go_all_lt (protocol prio : Nat) (pa : Bool) :
    ∀ (l : List Proto) (k : Nat), (∀ a ∈ l, a.prio < prio) →
      tcf_chain_tp_find_go protocol prio pa l k = .ok (k + l.length, none)
  | [], k, _ => by simp [tcf_chain_tp_find_go]
  | tp :: rest, k, h => by
    have htp : tp.prio < prio := h tp (by simp)
    rw [tcf_chain_tp_find_go, if_neg (by omega)]
    rw [find_go_all_lt protocol prio pa rest (k + 1) (fun a ha => h a (by simp [ha]))]
    simp only [List.length_cons]
    congr 2
    omega

/-- The find walk stops at the first proto whose prio is at least the
    requested one, and there decides between returning it, the gap
    cursor, and -EINVAL, exactly by the source's condition. -/
theorem find_go_stop_split (protocol prio : Nat) (pa : Bool) (tp : Proto)
    (l2 : List Proto) :
    ∀ (l1 : List Proto) (k : Nat), (∀ a ∈ l1, a.prio < prio) → prio ≤ tp.prio →
      tcf_chain_tp_find_go protocol prio pa (l1 ++ tp :: l2) k =
        if tp.prio = prio then
          (if pa ∨ (tp.protocol ≠ protocol ∧ protocol ≠ 0) then .error (-EINVAL)
           else .ok (k + l1.length, some tp))
        else
          .ok (k + l1.length, none)
  | [], k, _, hge => by
    rw [List.nil_append, tcf_chain_tp_find_go, if_pos (by omega)]
    simp
  | a :: l1, k, h, hge => by
    have ha : a.prio < prio := h a (by simp)
    rw [List.cons_append, tcf_chain_tp_find_go, if_neg (by omega)]
    rw [find_go_stop_split protocol prio pa tp l2 l1 (k + 1)
      (fun x hx => h x (by simp [hx])) hge]
    simp only [List.length_cons]
    have harith : k + 1 + List.length l1 = k + (List.length l1 + 1) := by omega
    rw [harith]

/-- Inversion of the find walk when it returns a gap cursor: the list
    splits at the cursor into an all-smaller prefix and a suffix whose
    head (if any) has a strictly larger prio. -/
theorem find_go_ok_none_split (protocol prio : Nat) (pa : Bool) :
    ∀ (l : List Proto) (k i : Nat),
      tcf_chain_tp_find_go protocol prio pa l k = .ok (i, none) →
      ∃ l1 l2, l = l1 ++ l2 ∧ i = k + l1.length ∧
        (∀ a ∈ l1, a.prio < prio) ∧
        (∀ hd, l2.head? = some hd → prio < hd.prio)
  | [], k, i, h => by
    refine ⟨[], [], by simp, ?_, by simp, by simp⟩
    simp only [tcf_chain_tp_find_go] at h
    cases h
    simp
  | tp :: rest, k, i, h => by
    rw [tcf_chain_tp_find_go] at h
    by_cases hge : tp.prio ≥ prio
    · rw [if_pos hge] at h
      by_cases heq : tp.prio = prio
      · rw [if_pos heq] at h
        split at h
        · cases h
        · cases h
      · rw [if_neg heq] at h
        cases h
        exact ⟨[], tp :: rest, by simp, by simp, by simp,
          fun hd hhd => by simp at hhd; subst hhd; omega⟩
    · rw [if_neg hge] at h
      obtain ⟨l1, l2, hsplit, hi, hlt, hhd⟩ :=
        find_go_ok_none_split protocol prio pa rest (k + 1) i h
      exact ⟨tp :: l1, l2, by simp [hsplit], by simp [hi]; omega,
        fun a ha => by
          rcases List.mem_cons.mp ha with h1 | h1
          · subst h1; omega
          · exact hlt a h1,
        hhd⟩

/-- When a proto with the requested (prio, protocol) is present in a
    priority-sorted chain and the requested protocol is nonzero, the find
    (without auto-prio) returns exactly that proto. -/
theorem find_mem_of_sorted (l : List Proto) (tp : Proto) (protocol prio : Nat)
    (hs : PrioSorted l) (hm : tp ∈ l) (hp : tp.prio = prio)
    (hpr : tp.protocol = protocol) (hnz : protocol ≠ 0) :
    ∃ i, tcf_chain_tp_find l protocol prio false = .ok (i, some tp) := by
  obtain ⟨l1, l2, rfl⟩ := List.append_of_mem hm
  have hcross := (List.pairwise_append.mp hs).2.2
  have hlt : ∀ a ∈ l1, a.prio < prio := fun a ha => by
    have := hcross a ha tp (by simp)
    omega
  refine ⟨l1.length, ?_⟩
  rw [tcf_chain_tp_find,
    find_go_stop_split protocol prio false tp l2 l1 0 hlt (by omega),
    if_pos hp, if_neg]
  · simp
  · simp [hpr, hnz]

/-- When no proto in the chain has the requested prio, the find (without
    auto-prio) returns a gap cursor, never an error or a hit. -/
theorem find_no_eq_prio (protocol prio : Nat) (pa : Bool) :
    ∀ (l : List Proto) (k : Nat), (∀ a ∈ l, a.prio ≠ prio) →
      ∃ i, tcf_chain_tp_find_go protocol prio pa l k = .ok (i, none)
  | [], k, _ => ⟨k, by simp [tcf_chain_tp_find_go]⟩
  | tp :: rest, k, h => by
    rw [tcf_chain_tp_find_go]
    by_cases hge : tp.prio ≥ prio
    · have : tp.prio ≠ prio := h tp (by simp)
      rw [if_pos hge, if_neg this]
      exact ⟨k, rfl⟩
    · rw [if_neg hge]
      exact find_no_eq_prio protocol prio pa rest (k + 1)
        (fun a ha => h a (by simp [ha]))

/-- Inserting at the length of the left part places the element between
    the two parts. -/
theorem insertIdx_prefix_length {α : Type} (x : α) :
    ∀ (l1 l2 : List α), (l1 ++ l2).insertIdx l1.length x = l1 ++ x :: l2
  | [], l2 => rfl
  | a :: l1, l2 => by
    simp only [List.cons_append, List.length_cons, List.insertIdx_succ_cons]
    rw [insertIdx_prefix_length x l1 l2]

/-- A strictly sorted list stays strictly sorted when an element is
    placed into a gap: everything left of the gap is smaller, the suffix
    head (hence, by sortedness, the whole suffix) is larger. -/
theorem sorted_insert_between (l1 l2 : List Proto) (tp : Proto) (p : Nat)
    (hs : PrioSorted (l1 ++ l2)) (h1 : ∀ a ∈ l1, a.prio < p)
    (h2 : ∀ hd, l2.head? = some hd → p < hd.prio) (htp : tp.prio = p) :
    PrioSorted (l1 ++ tp :: l2) := by
  rw [PrioSorted, List.pairwise_append] at hs ⊢
  obtain ⟨hs1, hs2, hcross⟩ := hs
  have hall2 : ∀ b ∈ l2, p < b.prio := by
    intro b hb
    cases l2 with
    | nil => simp at hb
    | cons hd tl =>
      have hhd : p < hd.prio := h2 hd rfl
      rcases List.mem_cons.mp hb with h | h
      · subst h; exact hhd
      · have := (List.pairwise_cons.mp hs2).1 b h
        omega
  refine ⟨hs1, ?_, ?_⟩
  · rw [List.pairwise_cons]
    exact ⟨fun b hb => by have := hall2 b hb; omega, hs2⟩
  · intro a ha b hb
    rcases List.mem_cons.mp hb with h | h
    · subst h
      have := h1 a ha
      omega
    · exact hcross a ha b h

/-! ## Claims C2 through C5: the PrioList operations -/

/-- Claim C5 (amended): the find walk stops at the first proto whose prio
    is at least the requested prio (returning the end gap cursor when no
    such proto exists); at an equal prio the proto is returned, at a
    strictly larger prio a gap cursor is returned; and the lookup fails
    with -EINVAL at an equal prio exactly when auto-prio was requested or
    the proto's protocol differs from a NONZERO requested protocol (a
    zero requested protocol matches any proto). -/
theorem claim_C5_find_semantics :
    (∀ (l : List Proto) (protocol prio : Nat) (pa : Bool),
       (∀ a ∈ l, a.prio < prio) →
       tcf_chain_tp_find l protocol prio pa = .ok (l.length, none)) ∧
    (∀ (l1 : List Proto) (tp : Proto) (l2 : List Proto)
       (protocol prio : Nat) (pa : Bool),
       (∀ a ∈ l1, a.prio < prio) → prio ≤ tp.prio →
       tcf_chain_tp_find (l1 ++ tp :: l2) protocol prio pa =
         if tp.prio = prio then
           (if pa ∨ (tp.protocol ≠ protocol ∧ protocol ≠ 0) then
              .error (-EINVAL)
            else
              .ok (l1.length, some tp))
         else
           .ok (l1.length, none)) := by
  constructor
  · intro l protocol prio pa h
    rw [tcf_chain_tp_find, find_go_all_lt protocol prio pa l 0 h]
    simp
  · intro l1 tp l2 protocol prio pa h1 h2
    rw [tcf_chain_tp_find, find_go_stop_split protocol prio pa tp l2 l1 0 h1 h2]
    simp

/-- Witness for claim C5: the amended characterization evaluated on a
    concrete two-element chain, requested prio falling in the gap. -/
theorem claim_C5_witness :
    tcf_chain_tp_find [⟨1, 10, 7, 0⟩, ⟨2, 30, 7, 0⟩] 7 20 false =
      .ok (1, none) := by
  have h := claim_C5_find_semantics.2 [⟨1, 10, 7, 0⟩] ⟨2, 30, 7, 0⟩ [] 7 20
    false (by decide) (by decide)
  simpa using h

/-- Counterexample for claim C5 as stated: a chain holding a single proto
    with prio 100 and protocol 5; a lookup of (prio 100, protocol 0)
    without auto-prio hits a proto at equal prio with a DIFFERENT
    protocol, yet the find returns that proto instead of failing with
    -EINVAL, because the source additionally requires the requested
    protocol to be nonzero (`tp->protocol != protocol && protocol`). -/
theorem claim_C5_counterexample :
    tcf_chain_tp_find [⟨1, 100, 5, 0⟩] 0 100 false =
      .ok (0, some ⟨1, 100, 5, 0⟩) ∧
    (Proto.mk 1 100 5 0).protocol ≠ 0 ∧
    tcf_chain_tp_find [⟨1, 100, 5, 0⟩] 0 100 false ≠ .error (-EINVAL) := by
  refine ⟨by decide, by decide, by decide⟩

/-- Claim C2 (amended): the auto-prio path of tc_new_tfilter runs the find
    with placeholder prio TC_H_MAKE(0x80000000, 0) and feeds the proto at
    the resulting cursor to tcf_auto_prio.  On an empty chain the
    allocated priority is the seed TC_H_MAJ(0xC0000000) = 0xC0000000
    (the user-visible upper-16-bit prio field reads 0xC000); the same
    seed results on any non-empty chain whose protos all have prio below
    0x80000000; when some proto has prio above the placeholder, the
    allocation is TC_H_MAJ(p - 1) of the FIRST such proto's prio p, not
    (least existing prio) - 1. -/
theorem claim_C2_auto_prio :
    (∀ protocol, tc_new_tfilter_auto_prio [] protocol = .ok 0xC0000000) ∧
    (∀ (l : List Proto) (protocol : Nat),
       (∀ a ∈ l, a.prio < 0x80000000) →
       tc_new_tfilter_auto_prio l protocol = .ok 0xC0000000) ∧
    (∀ (l1 : List Proto) (tp : Proto) (l2 : List Proto) (protocol : Nat),
       (∀ a ∈ l1, a.prio < 0x80000000) →
       0x80000000 < tp.prio → tp.prio < 0x100000000 →
       tc_new_tfilter_auto_prio (l1 ++ tp :: l2) protocol =
         .ok (TC_H_MAJ (tp.prio - 1))) := by
  have hmake : TC_H_MAKE 0x80000000 0 = 0x80000000 := by decide
  have hunfold : ∀ (l : List Proto) (protocol i : Nat),
      tcf_chain_tp_find l protocol (TC_H_MAKE 0x80000000 0) true =
        .ok (i, none) →
      tc_new_tfilter_auto_prio l protocol = .ok (tcf_auto_prio l[i]?) := by
    intro l protocol i h
    simp only [tc_new_tfilter_auto_prio, h]
  refine ⟨?_, ?_, ?_⟩
  · intro protocol
    rw [hunfold [] protocol 0 rfl]
    decide
  · intro l protocol h
    have hfind : tcf_chain_tp_find l protocol (TC_H_MAKE 0x80000000 0) true =
        .ok (l.length, none) := by
      rw [hmake, tcf_chain_tp_find, find_go_all_lt protocol 0x80000000 true l 0 h]
      simp
    rw [hunfold l protocol l.length hfind]
    rw [List.getElem?_eq_none (by omega)]
    decide
  · intro l1 tp l2 protocol h1 h2 h3
    have hfind : tcf_chain_tp_find (l1 ++ tp :: l2) protocol
        (TC_H_MAKE 0x80000000 0) true = .ok (l1.length, none) := by
      rw [hmake, tcf_chain_tp_find,
        find_go_stop_split protocol 0x80000000 true tp l2 l1 0 h1 (by omega),
        if_neg (by omega)]
      simp
    rw [hunfold (l1 ++ tp :: l2) protocol l1.length hfind]
    have hget : (l1 ++ tp :: l2)[l1.length]? = some tp := by
      rw [List.getElem?_append_right (by omega)]
      simp
    rw [hget, tcf_auto_prio]
    have hmod : (tp.prio + 0xFFFFFFFF) % 0x100000000 = tp.prio - 1 := by omega
    rw [hmod]

/-- Witness for claim C2: a chain holding one auto-allocated proto at the
    seed prio 0xC0000000; the next allocation is
    TC_H_MAJ(0xC0000000 - 1) = 0xBFFF0000. -/
theorem claim_C2_witness :
    tc_new_tfilter_auto_prio [⟨1, 0xC0000000, 0x800, 0⟩] 0x800 =
      .ok (TC_H_MAJ (0xC0000000 - 1)) :=
  claim_C2_auto_prio.2.2 [] ⟨1, 0xC0000000, 0x800, 0⟩ [] 0x800
    (by simp) (by norm_num) (by norm_num)

/-- Counterexample for claim C2 as stated: on an empty chain the allocated
    priority is 0xC0000000, not TC_H_MAJ(0xC0000000) = 0xC000 as the claim
    equates (TC_H_MAJ keeps the upper 16 bits in place); and on the
    non-empty chain holding a single proto at prio 0x640000 (user-visible
    prio 100) the allocation is again the seed 0xC0000000, not
    (least existing prio) - 1 = 0x63FFFF, because the find cursor only
    stops at protos with prio at least the 0x80000000 placeholder. -/
theorem claim_C2_counterexample :
    tc_new_tfilter_auto_prio [] 0x800 = .ok 0xC0000000 ∧
    (0xC0000000 : Nat) ≠ 0xC000 ∧
    tc_new_tfilter_auto_prio [⟨1, 0x640000, 0x800, 0⟩] 0x800 =
      .ok 0xC0000000 ∧
    (0xC0000000 : Nat) ≠ 0x640000 - 1 := by
  refine ⟨by decide, by decide, by decide, by decide⟩

/-- Claim C4: tcf_chain_tp_insert_unique re-checks under the chain lock;
    when a proto with the requested (prio, protocol) already exists in the
    (sorted) chain, the new proto is destroyed, the existing one is
    returned and the filter list is untouched; when no proto occupies the
    requested prio and the chain is flushing, the operation returns
    -EAGAIN with the filter list unchanged (and the new proto destroyed). -/
theorem claim_C4_insert_unique :
    (∀ (c : ChainSt) (tp tp_new : Proto) (protocol prio : Nat),
       PrioSorted c.filter_chain →
       tp ∈ c.filter_chain → tp.prio = prio → tp.protocol = protocol →
       protocol ≠ 0 →
       tcf_chain_tp_insert_unique c tp_new protocol prio = ⟨.ok tp, c, true⟩) ∧
    (∀ (c : ChainSt) (tp_new : Proto) (protocol prio : Nat),
       (∀ a ∈ c.filter_chain, a.prio ≠ prio) →
       c.flushing = true →
       tcf_chain_tp_insert_unique c tp_new protocol prio =
         ⟨.error (-EAGAIN), c, true⟩) := by
  constructor
  · intro c tp tp_new protocol prio hs hm hp hpr hnz
    obtain ⟨i, hfind⟩ := find_mem_of_sorted c.filter_chain tp protocol prio
      hs hm hp hpr hnz
    rw [tcf_chain_tp_insert_unique, hfind]
  · intro c tp_new protocol prio hne hfl
    obtain ⟨i, hfind⟩ := find_no_eq_prio protocol prio false c.filter_chain 0 hne
    simp only [tcf_chain_tp_insert_unique, tcf_chain_tp_find, hfind,
      tcf_chain_tp_insert, if_pos hfl]

/-- Witness for claim C4: both branches on concrete chains: a duplicate
    insert at (prio 5, protocol 7) against an existing proto yields the
    existing proto with the chain untouched; an insert into a flushing
    chain yields -EAGAIN. -/
theorem claim_C4_witness :
    tcf_chain_tp_insert_unique ⟨false, [⟨1, 5, 7, 0⟩]⟩ ⟨2, 5, 7, 0⟩ 7 5 =
      ⟨.ok ⟨1, 5, 7, 0⟩, ⟨false, [⟨1, 5, 7, 0⟩]⟩, true⟩ ∧
    tcf_chain_tp_insert_unique ⟨true, []⟩ ⟨2, 5, 7, 0⟩ 7 5 =
      ⟨.error (-EAGAIN), ⟨true, []⟩, true⟩ :=
  ⟨claim_C4_insert_unique.1 ⟨false, [⟨1, 5, 7, 0⟩]⟩ ⟨1, 5, 7, 0⟩ ⟨2, 5, 7, 0⟩
      7 5 (by simp [PrioSorted]) (by simp) rfl rfl (by decide),
   claim_C4_insert_unique.2 ⟨true, []⟩ ⟨2, 5, 7, 0⟩ 7 5 (by simp) rfl⟩

/-- Claim C3: every filter-list mutation preserves strict prio
    monotonicity of the chain traversal — insert-unique (the sole insert
    entry point of tc_new_tfilter, inserting a proto carrying the
    requested prio), remove, flush and delete-if-empty — and strictly
    increasing prios imply that no two protos of one chain share
    (prio, protocol). -/
theorem claim_C3_prio_monotonicity :
    (∀ (c : ChainSt) (tp_new : Proto) (protocol prio : Nat),
       tp_new.prio = prio → PrioSorted c.filter_chain →
       PrioSorted
         (tcf_chain_tp_insert_unique c tp_new protocol prio).chain.filter_chain) ∧
    (∀ (c : ChainSt) (cursor : Nat), PrioSorted c.filter_chain →
       PrioSorted (tcf_chain_tp_remove c cursor).filter_chain) ∧
    (∀ c : ChainSt, PrioSorted (tcf_chain_flush c).filter_chain) ∧
    (∀ (c : ChainSt) (tp : Proto) (isEmpty : Nat → Bool),
       PrioSorted c.filter_chain →
       PrioSorted (tcf_chain_tp_delete_empty c tp isEmpty).filter_chain) ∧
    (∀ l : List Proto, PrioSorted l →
       List.Pairwise (fun a b => ¬(a.prio = b.prio ∧ a.protocol = b.protocol)) l) := by
  refine ⟨?_, ?_, ?_, ?_, ?_⟩
  · intro c tp_new protocol prio htp hs
    cases hfind : tcf_chain_tp_find c.filter_chain protocol prio false with
    | error e =>
      simp only [tcf_chain_tp_insert_unique, hfind]
      exact hs
    | ok v =>
      obtain ⟨i, otp⟩ := v
      cases otp with
      | some tp =>
        simp only [tcf_chain_tp_insert_unique, hfind]
        exact hs
      | none =>
        by_cases hfl : c.flushing
        · simp only [tcf_chain_tp_insert_unique, hfind, tcf_chain_tp_insert,
            if_pos hfl]
          exact hs
        · simp only [tcf_chain_tp_insert_unique, hfind, tcf_chain_tp_insert,
            if_neg hfl]
          obtain ⟨l1, l2, hsplit, hi, hlt, hhd⟩ :=
            find_go_ok_none_split protocol prio false c.filter_chain 0 i hfind
          rw [hsplit, hi, Nat.zero_add, insertIdx_prefix_length]
          rw [hsplit] at hs
          exact sorted_insert_between l1 l2 tp_new prio hs hlt hhd htp
  · intro c cursor hs
    exact List.Pairwise.sublist (List.eraseIdx_sublist _ cursor) hs
  · intro c
    simp [tcf_chain_flush, PrioSorted]
  · intro c tp isEmpty hs
    cases hidx : c.filter_chain.findIdx? (fun p => p.id == tp.id) with
    | none =>
      simp only [tcf_chain_tp_delete_empty, hidx]
      exact hs
    | some i =>
      by_cases he : isEmpty tp.id
      · simp only [tcf_chain_tp_delete_empty, hidx, if_pos he]
        exact List.Pairwise.sublist (List.eraseIdx_sublist _ i) hs
      · simp only [tcf_chain_tp_delete_empty, hidx, if_neg he]
        exact hs
  · intro l hs
    refine List.Pairwise.imp ?_ hs
    intro a b hab
    intro hcon
    omega

/-- Witness for claim C3: inserting prio 20 into the sorted chain
    [prio 10, prio 30] through insert-unique keeps the traversal strictly
    increasing. -/
theorem claim_C3_witness :
    PrioSorted
      (tcf_chain_tp_insert_unique ⟨false, [⟨1, 10, 7, 0⟩, ⟨2, 30, 7, 0⟩]⟩
        ⟨3, 20, 7, 0⟩ 7 20).chain.filter_chain :=
  claim_C3_prio_monotonicity.1 ⟨false, [⟨1, 10, 7, 0⟩, ⟨2, 30, 7, 0⟩]⟩
    ⟨3, 20, 7, 0⟩ 7 20 rfl (by simp [PrioSorted])

/-! ## Claim C1: the reclassify cap of tcf_classify -/

/-- The restart counter of the dispatcher walk never exceeds
    max_reclassify_loop minus the entry value of `limit`: each reset
    either increments `limit` or, once `limit` reaches the cap, returns
    Shot without restarting. -/
theorem classify_go_restarts_le (pkt : Packet) (orig : List ProtoC)
    (compat : Bool) (limit : Nat) (hint : Option Nat) (tps : List ProtoC) :
    (tcf_classify_go pkt orig compat limit hint tps).restarts ≤
      max_reclassify_loop - limit := by
  induction limit, hint, tps using tcf_classify_go.induct pkt orig compat with
  | case1 limit hint => simp [tcf_classify_go]
  | case2 limit hint tp rest hne ih =>
    rw [tcf_classify_go, if_pos hne]
    exact ih
  | case3 limit hint tp rest hne hr hlim =>
    rw [tcf_classify_go, if_neg hne, if_pos hr, if_pos hlim]
    simp
  | case4 limit hint tp rest hne hr hlim ih =>
    rw [tcf_classify_go, if_neg hne, if_pos hr, if_neg hlim]
    simp only
    omega
  | case5 limit hint tp rest hne hr hg hlim =>
    rw [tcf_classify_go, if_neg hne, if_neg hr, if_pos hg, if_pos hlim]
    simp
  | case6 limit hint tp rest hne hr hg hlim ih =>
    rw [tcf_classify_go, if_neg hne, if_neg hr, if_pos hg, if_neg hlim]
    simp only
    omega
  | case7 limit hint tp rest hne hr hg hge =>
    rw [tcf_classify_go, if_neg hne, if_neg hr, if_neg hg, if_pos hge]
    simp
  | case8 limit hint tp rest hne hr hg hge ih =>
    rw [tcf_classify_go, if_neg hne, if_neg hr, if_neg hg, if_neg hge]
    simp only
    omega

/-- Claim C1: outside compat mode the walk of tcf_classify restarts at
    most max_reclassify_loop = 4 times; and a packet classified through a
    single proto whose classify always returns Reclassify yields Shot
    after exactly 5 classify invocations (the initial walk plus 4
    restarts), emitting the rate-limited notice carrying
    (block index, prio & 0xffff, protocol). -/
theorem claim_C1_reclassify_cap :
    (∀ (pkt : Packet) (tp : List ProtoC) (env : Option BlockC),
       (tcf_classify pkt tp false env).restarts ≤ max_reclassify_loop) ∧
    (∀ b p pr : Nat,
       tcf_classify ⟨pr, none⟩ [reclassifyProto b p pr] false none =
         ⟨TC_ACT_SHOT, some (b, p &&& 0xFFFF, pr), 5, 4, none⟩) := by
  constructor
  · intro pkt tp env
    simp only [tcf_classify]
    simpa using classify_go_restarts_le pkt tp false 0 pkt.extChain _
  · intro b p pr
    have hguard : ¬((reclassifyProto b p pr).protocol ≠
        (Packet.mk pr none).protocol ∧
        (reclassifyProto b p pr).protocol ≠ ETH_P_ALL) := by
      simp [reclassifyProto, ProtoC.protocol]
    have hr : ((reclassifyProto b p pr).classify ⟨pr, none⟩).1 =
        TC_ACT_RECLASSIFY ∧ false = false := by
      simp [reclassifyProto, ProtoC.classify]
    have hstep : ∀ limit : Nat, limit < max_reclassify_loop →
        tcf_classify_go ⟨pr, none⟩ [reclassifyProto b p pr] false limit none
          [reclassifyProto b p pr] =
        ⟨(tcf_classify_go ⟨pr, none⟩ [reclassifyProto b p pr] false (limit + 1)
            none [reclassifyProto b p pr]).action,
         (tcf_classify_go ⟨pr, none⟩ [reclassifyProto b p pr] false (limit + 1)
            none [reclassifyProto b p pr]).notice,
         (tcf_classify_go ⟨pr, none⟩ [reclassifyProto b p pr] false (limit + 1)
            none [reclassifyProto b p pr]).calls + 1,
         (tcf_classify_go ⟨pr, none⟩ [reclassifyProto b p pr] false (limit + 1)
            none [reclassifyProto b p pr]).restarts + 1,
         (tcf_classify_go ⟨pr, none⟩ [reclassifyProto b p pr] false (limit + 1)
            none [reclassifyProto b p pr]).hint⟩ := by
      intro limit hlt
      rw [tcf_classify_go, if_neg hguard, if_pos hr, if_neg (by omega)]
    have h4 : tcf_classify_go ⟨pr, none⟩ [reclassifyProto b p pr] false 4 none
        [reclassifyProto b p pr] =
        ⟨TC_ACT_SHOT, some (b, p &&& 0xFFFF, pr), 1, 0, none⟩ := by
      rw [tcf_classify_go, if_neg hguard, if_pos hr,
        if_pos (by norm_num [max_reclassify_loop])]
      simp [reclassifyProto, ProtoC.blockIndex, ProtoC.prio, ProtoC.protocol]
    have h3 : tcf_classify_go ⟨pr, none⟩ [reclassifyProto b p pr] false 3 none
        [reclassifyProto b p pr] =
        ⟨TC_ACT_SHOT, some (b, p &&& 0xFFFF, pr), 2, 1, none⟩ := by
      rw [hstep 3 (by norm_num [max_reclassify_loop]), h4]
    have h2 : tcf_classify_go ⟨pr, none⟩ [reclassifyProto b p pr] false 2 none
        [reclassifyProto b p pr] =
        ⟨TC_ACT_SHOT, some (b, p &&& 0xFFFF, pr), 3, 2, none⟩ := by
      rw [hstep 2 (by norm_num [max_reclassify_loop]), h3]
    have h1 : tcf_classify_go ⟨pr, none⟩ [reclassifyProto b p pr] false 1 none
        [reclassifyProto b p pr] =
        ⟨TC_ACT_SHOT, some (b, p &&& 0xFFFF, pr), 4, 3, none⟩ := by
      rw [hstep 1 (by norm_num [max_reclassify_loop]), h2]
    have h0 : tcf_classify_go ⟨pr, none⟩ [reclassifyProto b p pr] false 0 none
        [reclassifyProto b p pr] =
        ⟨TC_ACT_SHOT, some (b, p &&& 0xFFFF, pr), 5, 4, none⟩ := by
      rw [hstep 0 (by norm_num [max_reclassify_loop]), h1]
    simpa only [tcf_classify] using h0

/-! ## Claim C6: offload playback -/

/-- The add = false playback over one chain invokes every
    reoffload-capable proto once, in list order. -/
theorem playback_remove_protos_all (l : List ProtoR)
    (h : ∀ tp ∈ l, tp.hasReoffload = true) :
    playback_remove_protos l = l.map (fun tp => (tp.id, false)) := by
  induction l with
  | nil => rfl
  | cons tp rest ih =>
    rw [playback_remove_protos, if_pos (h tp (by simp))]
    rw [ih (fun x hx => h x (by simp [hx]))]
    rfl

/-- The add = false playback over a block is one UNBIND per visible
    proto, in walk order. -/
theorem playback_remove_all (block : List OffChain)
    (h : ∀ ch ∈ block, ∀ tp ∈ ch.protos, tp.hasReoffload = true) :
    playback_remove block = (visibleProtoIds block).map (fun i => (i, false)) := by
  induction block with
  | nil => rfl
  | cons ch rest ih =>
    by_cases ha : ch.actsOnly
    · rw [playback_remove, if_pos ha, visibleProtoIds, if_pos ha]
      exact ih (fun c hc => h c (by simp [hc]))
    · rw [playback_remove, if_neg ha, visibleProtoIds, if_neg ha]
      rw [playback_remove_protos_all ch.protos (h ch (by simp)),
        ih (fun c hc => h c (by simp [hc]))]
      simp [List.map_map]

/-- The add = true playback over one chain's protos succeeds with one
    BIND per proto when every proto is reoffload-capable and its BIND
    succeeds. -/
theorem playback_add_protos_ok (block : List OffChain) (offl : Bool)
    (l : List ProtoR)
    (h : ∀ tp ∈ l, tp.hasReoffload = true ∧ tp.reoffloadErr true = 0) :
    playback_add_protos block offl l = (0, l.map (fun tp => (tp.id, true))) := by
  induction l with
  | nil => rfl
  | cons tp rest ih =>
    obtain ⟨h1, h2⟩ := h tp (by simp)
    rw [playback_add_protos, if_pos h1, if_neg (by simp [h2])]
    rw [ih (fun x hx => h x (by simp [hx]))]
    rfl

/-- The add = true playback over the chains succeeds with one BIND per
    visible proto, in walk order, when every BIND succeeds. -/
theorem playback_add_ok (block : List OffChain) (offl : Bool)
    (rest : List OffChain)
    (h : ∀ ch ∈ rest, ∀ tp ∈ ch.protos,
      tp.hasReoffload = true ∧ tp.reoffloadErr true = 0) :
    playback_add block offl rest =
      (0, (visibleProtoIds rest).map (fun i => (i, true))) := by
  induction rest with
  | nil => rfl
  | cons ch rest2 ih =>
    by_cases ha : ch.actsOnly
    · rw [playback_add, if_pos ha, visibleProtoIds, if_pos ha]
      exact ih (fun c hc => h c (by simp [hc]))
    · rw [playback_add, if_neg ha, visibleProtoIds, if_neg ha]
      rw [playback_add_protos_ok block offl ch.protos (h ch (by simp))]
      simp only [ne_eq, not_true_eq_false, if_neg]
      rw [ih (fun c hc => h c (by simp [hc]))]
      simp [List.map_map]

/-- Every reoffload-capable proto of a chain appears (with add = false)
    in the chain's remove playback. -/
theorem playback_remove_protos_mem (l : List ProtoR) (tp : ProtoR)
    (hm : tp ∈ l) (hr : tp.hasReoffload = true) :
    (tp.id, false) ∈ playback_remove_protos l := by
  induction l with
  | nil => simp at hm
  | cons hd rest ih =>
    rw [playback_remove_protos]
    rcases List.mem_cons.mp hm with h | h
    · subst h
      rw [if_pos hr]
      simp
    · by_cases hh : hd.hasReoffload
      · rw [if_pos hh]
        exact List.mem_cons_of_mem _ (ih h)
      · rw [if_neg hh]
        exact ih h

/-- The add = true playback over one chain's protos, failing at a proto
    in the middle: the already-played BINDs, the failing BIND, then the
    whole-block remove playback. -/
theorem playback_add_protos_fail (block : List OffChain) (offl : Bool)
    (tpf : ProtoR) (l2 : List ProtoR)
    (hf : tpf.hasReoffload = true) (he : tpf.reoffloadErr true ≠ 0) :
    ∀ l1 : List ProtoR,
      (∀ tp ∈ l1, tp.hasReoffload = true ∧ tp.reoffloadErr true = 0) →
      playback_add_protos block offl (l1 ++ tpf :: l2) =
        (tpf.reoffloadErr true,
          l1.map (fun tp => (tp.id, true)) ++
            (tpf.id, true) :: playback_remove block)
  | [], _ => by
    rw [List.nil_append, playback_add_protos, if_pos hf, if_pos he]
    rfl
  | tp :: l1, h => by
    obtain ⟨h1, h2⟩ := h tp (by simp)
    rw [List.cons_append, playback_add_protos, if_pos h1, if_neg (by simp [h2])]
    rw [playback_add_protos_fail block offl tpf l2 hf he l1
      (fun x hx => h x (by simp [hx]))]
    rfl

/-- Claim C6 (amended): registering an offload callback on a block with N
    reoffload-capable filters whose BIND replays all succeed invokes
    reoffload(add = true) exactly once per filter in walk order, and
    unregistering invokes reoffload(add = false) exactly once per filter
    in the SAME walk order (not the inverse); when a BIND replay fails
    mid-playback, the error is returned together with the trace of the
    already-played BINDs, the failing BIND, and a whole-block remove
    playback, which in particular walks back every already-played entry
    with add = false. -/
theorem claim_C6_offload_playback :
    (∀ (block : List OffChain) (offl : Bool),
       (∀ ch ∈ block, ∀ tp ∈ ch.protos,
          tp.hasReoffload = true ∧ tp.reoffloadErr true = 0) →
       tcf_block_playback_offloads block true offl =
         (0, (visibleProtoIds block).map (fun i => (i, true))) ∧
       tcf_block_playback_offloads block false offl =
         (0, (visibleProtoIds block).map (fun i => (i, false)))) ∧
    (∀ (l1 : List ProtoR) (tpf : ProtoR) (l2 : List ProtoR) (offl : Bool),
       (∀ tp ∈ l1, tp.hasReoffload = true ∧ tp.reoffloadErr true = 0) →
       tpf.hasReoffload = true → tpf.reoffloadErr true ≠ 0 →
       tcf_block_playback_offloads [⟨false, l1 ++ tpf :: l2⟩] true offl =
         (tpf.reoffloadErr true,
           l1.map (fun tp => (tp.id, true)) ++
             (tpf.id, true) :: playback_remove [⟨false, l1 ++ tpf :: l2⟩]) ∧
       (∀ tp ∈ l1, (tp.id, false) ∈
          playback_remove [⟨false, l1 ++ tpf :: l2⟩])) := by
  constructor
  · intro block offl h
    constructor
    · rw [tcf_block_playback_offloads, if_pos rfl]
      exact playback_add_ok block offl block h
    · rw [tcf_block_playback_offloads, if_neg (by simp)]
      rw [playback_remove_all block (fun ch hc tp ht => (h ch hc tp ht).1)]
  · intro l1 tpf l2 offl h1 hf he
    constructor
    · rw [tcf_block_playback_offloads, if_pos rfl, playback_add, if_neg (by simp)]
      simp only
      rw [playback_add_protos_fail _ offl tpf l2 hf he l1 h1]
      rw [if_pos (by simpa using he)]
    · intro tp htp
      rw [playback_remove, if_neg (by simp)]
      refine List.mem_append_left _ ?_
      exact playback_remove_protos_mem _ tp
        (List.mem_append_left _ htp) (h1 tp htp).1

/-- Witness for claim C6: the round-trip clause evaluated on a block with
    one visible chain of two reoffload-capable filters. -/
theorem claim_C6_witness :
    tcf_block_playback_offloads
        [⟨false, [⟨1, true, fun _ => 0⟩, ⟨2, true, fun _ => 0⟩]⟩] true false =
      (0, (visibleProtoIds
        [⟨false, [⟨1, true, fun _ => 0⟩, ⟨2, true, fun _ => 0⟩]⟩]).map
          (fun i => (i, true))) ∧
    tcf_block_playback_offloads
        [⟨false, [⟨1, true, fun _ => 0⟩, ⟨2, true, fun _ => 0⟩]⟩] false false =
      (0, (visibleProtoIds
        [⟨false, [⟨1, true, fun _ => 0⟩, ⟨2, true, fun _ => 0⟩]⟩]).map
          (fun i => (i, false))) :=
  claim_C6_offload_playback.1
    [⟨false, [⟨1, true, fun _ => 0⟩, ⟨2, true, fun _ => 0⟩]⟩] false (by decide)

/-- Counterexample for claim C6 as stated: on a block holding two filters
    the unregister playback invokes the UNBINDs in the same forward order
    as the register playback's BINDs — [(1, false), (2, false)] — not in
    inverse order [(2, false), (1, false)] as the claim asserts. -/
theorem claim_C6_counterexample :
    (tcf_block_playback_offloads
        [⟨false, [⟨1, true, fun _ => 0⟩, ⟨2, true, fun _ => 0⟩]⟩]
        true false).2 = [(1, true), (2, true)] ∧
    (tcf_block_playback_offloads
        [⟨false, [⟨1, true, fun _ => 0⟩, ⟨2, true, fun _ => 0⟩]⟩]
        false false).2 = [(1, false), (2, false)] ∧
    ([(1, false), (2, false)] : ReoffloadTrace) ≠ [(2, false), (1, false)] := by
  refine ⟨by decide, by decide, by decide⟩

/-! ## Claim C7: invisibility of action-only chains -/

/-- The skip loop of __tcf_get_next_chain only ever stops on a chain that
    is not held by actions only. -/
theorem chain_skip_acts_only_spec (chains : List ChainView) (i j : Nat)
    (h : chain_skip_acts_only chains i = some j) :
    ∃ c, chains[j]? = some c ∧ tcf_chain_held_by_acts_only c = false := by
  have main : ∀ k i j, chains.length - i ≤ k →
      chain_skip_acts_only chains i = some j →
      ∃ c, chains[j]? = some c ∧ tcf_chain_held_by_acts_only c = false := by
    intro k
    induction k with
    | zero =>
      intro i j hle h
      rw [chain_skip_acts_only, dif_neg (by omega)] at h
      exact Option.noConfusion h
    | succ k ih =>
      intro i j hle h
      rw [chain_skip_acts_only] at h
      by_cases hlt : i < chains.length
      · rw [dif_pos hlt] at h
        by_cases hacts : tcf_chain_held_by_acts_only (chains.get ⟨i, hlt⟩)
        · rw [if_pos hacts] at h
          exact ih (i + 1) j (by omega) h
        · rw [if_neg hacts] at h
          cases h
          refine ⟨chains.get ⟨i, hlt⟩, ?_, by simpa using hacts⟩
          rw [List.get_eq_getElem, List.getElem?_eq_getElem]
      · rw [dif_neg hlt] at h
        exact Option.noConfusion h
  exact main (chains.length - i) i j (le_refl _) h

/-- The dump selection never emits a chain held by actions only. -/
theorem dump_sel_no_acts_only (fidx : Option Nat) (start : Nat) :
    ∀ (chains : List ChainView) (index : Nat) (c : ChainView),
      c ∈ tc_dump_chain_sel fidx start chains index →
      tcf_chain_held_by_acts_only c = false
  | [], _, c, h => by simp [tc_dump_chain_sel] at h
  | hd :: rest, index, c, h => by
    rw [tc_dump_chain_sel] at h
    by_cases h1 : Option.any (fun f => f != hd.index) fidx = true
    · rw [if_pos h1] at h
      exact dump_sel_no_acts_only fidx start rest index c h
    · rw [if_neg h1] at h
      by_cases h2 : index < start
      · rw [if_pos h2] at h
        exact dump_sel_no_acts_only fidx start rest (index + 1) c h
      · rw [if_neg h2] at h
        by_cases h3 : tcf_chain_held_by_acts_only hd
        · rw [if_pos h3] at h
          exact dump_sel_no_acts_only fidx start rest index c h
        · rw [if_neg h3] at h
          rcases List.mem_cons.mp h with he | he
          · subst he
            simpa using h3
          · exact dump_sel_no_acts_only fidx start rest (index + 1) c he

/-- Claim C7: a chain whose refcnt equals its action_refcnt is never
    yielded by the __tcf_get_next_chain enumeration nor by the chain dump
    selection; and a DELCHAIN or GETCHAIN naming such a chain is refused
    with -EINVAL ("Cannot find specified filter chain") while the block's
    chain list is left unchanged. -/
theorem claim_C7_action_only_invisible :
    (∀ (chains : List ChainView) (cur : Option Nat) (j : Nat),
       tcf_get_next_chain_idx chains cur = some j →
       ∃ c, chains[j]? = some c ∧ c.refcnt ≠ c.action_refcnt) ∧
    (∀ (chains : List ChainView) (fidx : Option Nat) (start index : Nat)
       (c : ChainView),
       c ∈ tc_dump_chain_sel fidx start chains index →
       c.refcnt ≠ c.action_refcnt) ∧
    (∀ (msg : ChainMsg) (chains : List ChainView) (ci : Nat) (cf : Bool)
       (c : ChainView),
       (msg = .delChain ∨ msg = .getChain) →
       tcf_chain_lookup chains ci = some c →
       c.refcnt = c.action_refcnt →
       tc_ctl_chain_resolve msg chains ci cf = (.error (-EINVAL), chains)) := by
  refine ⟨?_, ?_, ?_⟩
  · intro chains cur j h
    have hspec : ∃ c, chains[j]? = some c ∧
        tcf_chain_held_by_acts_only c = false := by
      cases cur with
      | none => exact chain_skip_acts_only_spec chains 0 j h
      | some i => exact chain_skip_acts_only_spec chains (i + 1) j h
    obtain ⟨c, hc, hh⟩ := hspec
    refine ⟨c, hc, ?_⟩
    simpa [tcf_chain_held_by_acts_only] using hh
  · intro chains fidx start index c h
    have := dump_sel_no_acts_only fidx start chains index c h
    simpa [tcf_chain_held_by_acts_only] using this
  · intro msg chains ci cf c hmsg hlk hrc
    have hheld : tcf_chain_held_by_acts_only c = true := by
      simp [tcf_chain_held_by_acts_only, hrc]
    rcases hmsg with h | h
    · subst h
      simp only [tc_ctl_chain_resolve, hlk]
      rw [if_pos hheld]
    · subst h
      simp only [tc_ctl_chain_resolve, hlk]
      rw [if_pos hheld]

/-- Witness for claim C7: a block whose chain 0 is action-only (refcnt 2 =
    action_refcnt 2) and whose chain 1 is user-visible; enumeration from
    the head lands on position 1, and a DELCHAIN naming an action-only
    chain index 3 in a second block is refused with the list unchanged. -/
theorem claim_C7_witness :
    (∃ c, ([⟨0, 2, 2, false⟩, ⟨1, 3, 1, true⟩] :
        List ChainView)[1]? = some c ∧ c.refcnt ≠ c.action_refcnt) ∧
    tc_ctl_chain_resolve .delChain [⟨3, 2, 2, false⟩] 3 false =
      (.error (-EINVAL), [⟨3, 2, 2, false⟩]) :=
  ⟨claim_C7_action_only_invisible.1 [⟨0, 2, 2, false⟩, ⟨1, 3, 1, true⟩]
      none 1 (by
        rw [tcf_get_next_chain_idx, chain_skip_acts_only, dif_pos (by decide),
          if_pos (by decide), chain_skip_acts_only, dif_pos (by decide),
          if_neg (by decide)]),
   claim_C7_action_only_invisible.2.2 .delChain [⟨3, 2, 2, false⟩] 3 false
      ⟨3, 2, 2, false⟩ (Or.inl rfl) (by decide) rfl⟩

/-! ## Claim C9: DelFilter flush on a missing chain -/

/-- Claim C9: a DelFilter whose chain index resolves to no chain of the
    block returns success 0 with the block unchanged when prio == 0 (the
    whole-chain flush form, which also requires protocol, handle and kind
    unset to pass the early guard), and -ENOENT with the block unchanged
    when prio != 0. -/
theorem claim_C9_flush_missing_chain :
    ∀ (env : OpsEnv) (block : List ChainD) (tcm_info tcm_handle : Nat)
      (tca_kind : Option Nat) (tca_chain : Option Nat),
      lookupChainD block (tca_chain.getD 0) = none →
      tca_chain.getD 0 ≤ TC_ACT_EXT_VAL_MASK →
      (TC_H_MAJ tcm_info = 0 → TC_H_MIN tcm_info = 0 → tcm_handle = 0 →
        tca_kind = none →
        tc_del_tfilter env block tcm_info tcm_handle tca_kind tca_chain =
          (0, block)) ∧
      (TC_H_MAJ tcm_info ≠ 0 →
        tc_del_tfilter env block tcm_info tcm_handle tca_kind tca_chain =
          (-ENOENT, block)) := by
  intro env block tcm_info tcm_handle tca_kind tca_chain hlook hle
  constructor
  · intro h1 h2 h3 h4
    simp only [tc_del_tfilter, hlook]
    rw [if_neg (by simp [h1, h2, h3, h4]), if_neg (by omega), if_pos h1]
  · intro h1
    simp only [tc_del_tfilter, hlook]
    rw [if_neg (by simp [h1]), if_neg (by omega), if_neg h1]

/-- Witness for claim C9: a block holding only chain 5; a flush-form
    DelFilter (tcm_info = 0, handle 0, no kind) naming chain 3 returns 0
    with the block untouched, while a prio-carrying DelFilter
    (tcm_info = 0x10000) naming chain 3 returns -ENOENT. -/
theorem claim_C9_witness :
    tc_del_tfilter ⟨fun _ _ => false, fun _ _ => (0, false), fun _ => true⟩
        [⟨5, ⟨false, []⟩⟩] 0 0 none (some 3) = (0, [⟨5, ⟨false, []⟩⟩]) ∧
    tc_del_tfilter ⟨fun _ _ => false, fun _ _ => (0, false), fun _ => true⟩
        [⟨5, ⟨false, []⟩⟩] 0x10000 0 none (some 3) =
      (-ENOENT, [⟨5, ⟨false, []⟩⟩]) :=
  ⟨(claim_C9_flush_missing_chain
      ⟨fun _ _ => false, fun _ _ => (0, false), fun _ => true⟩
      [⟨5, ⟨false, []⟩⟩] 0 0 none (some 3) (by decide) (by decide)).1
      (by decide) (by decide) rfl rfl,
   (claim_C9_flush_missing_chain
      ⟨fun _ _ => false, fun _ _ => (0, false), fun _ => true⟩
      [⟨5, ⟨false, []⟩⟩] 0x10000 0 none (some 3) (by decide) (by decide)).2
      (by decide)⟩

/-! ## Claim C8: prio_hp_num_store -/

/-- Claim C8: the prio_hp_num_store handler returns -EINVAL on a positive
    in-range count while hairpin prios are already enabled
    (num_prio_hp != 0), on a zero count while they are already disabled
    (num_prio_hp == 0), and on any count below 0 or above
    MLX5E_MAX_HP_PRIO: none of these writes are accepted idempotently. -/
theorem claim_C8_prio_hp_num_store :
    ∀ (max_hp num_hp num_prio_hp e d count : Int),
      (0 ≤ num_hp → num_hp ≤ max_hp → num_hp ≠ 0 → num_prio_hp ≠ 0 →
        prio_hp_num_store max_hp (some num_hp) num_prio_hp e d count =
          -EINVAL) ∧
      (num_hp = 0 → num_prio_hp = 0 →
        prio_hp_num_store max_hp (some num_hp) num_prio_hp e d count =
          -EINVAL) ∧
      (num_hp < 0 →
        prio_hp_num_store max_hp (some num_hp) num_prio_hp e d count =
          -EINVAL) ∧
      (max_hp < num_hp →
        prio_hp_num_store max_hp (some num_hp) num_prio_hp e d count =
          -EINVAL) := by
  intro max_hp num_hp num_prio_hp e d count
  refine ⟨?_, ?_, ?_, ?_⟩
  · intro h1 h2 h3 h4
    simp only [prio_hp_num_store]
    rw [if_neg (by omega), if_neg (fun hc => h4 hc.2), if_neg (fun hc => h3 hc.1)]
  · intro h1 h2
    simp only [prio_hp_num_store]
    by_cases hr : num_hp < 0 ∨ num_hp > max_hp
    · rw [if_pos hr]
    · rw [if_neg hr, if_neg (fun hc => hc.1 h1), if_neg (fun hc => hc.2 h2)]
  · intro h1
    simp only [prio_hp_num_store]
    rw [if_pos (Or.inl h1)]
  · intro h1
    simp only [prio_hp_num_store]
    rw [if_pos (Or.inr h1)]

/-- Witness for claim C8: with MLX5E_MAX_HP_PRIO = 8, writing 3 while 2
    prios are already enabled and writing 0 while none are enabled both
    return -EINVAL. -/
theorem claim_C8_witness :
    prio_hp_num_store 8 (some 3) 2 0 0 10 = -EINVAL ∧
    prio_hp_num_store 8 (some 0) 0 0 0 10 = -EINVAL :=
  ⟨(claim_C8_prio_hp_num_store 8 3 2 0 0 10).1
      (by decide) (by decide) (by decide) (by decide),
   (claim_C8_prio_hp_num_store 8 0 0 0 0 10).2.1 rfl rfl⟩

/-! ## Claim C10: the uninitialized error variable of rate_store -/

/-- Claim C10: for every write parsing to a new rate (different from the
    stored one), with rate limiting supported and the scaled rate zero or
    in range, while the device is NOT opened, rate_store reaches the
    `if (err)` test with the local err never assigned (`some none`) and
    its return value is not defined by any prior assignment (`none`). -/
theorem claim_C10_rate_store_uninitialized :
    ∀ (u g_rate : Int) (rl_in_range : Int → Bool) (set_err count : Int),
      u ≠ g_rate →
      (u * 1024 = 0 ∨ rl_in_range (u * 1024) = true) →
      rate_store (some u) g_rate true rl_in_range false set_err count =
        (none, some none) := by
  intro u g_rate rl_in_range set_err count hne hrange
  have hnr : ¬(u * 1024 ≠ 0 ∧ rl_in_range (u * 1024) = false) := by
    rcases hrange with h0 | ht
    · intro hc
      exact hc.1 h0
    · intro hc
      rw [ht] at hc
      exact Bool.noConfusion hc.2
  simp only [rate_store]
  rw [if_neg hne, if_neg (by simp), if_neg hnr, if_neg (by simp)]

/-- Witness for claim C10: writing rate 1 (scaled 1024, in range) with
    the stored rate 0 and the device closed reaches the test with err
    unassigned. -/
theorem claim_C10_witness :
    rate_store (some 1) 0 true (fun _ => true) false 0 4 =
      (none, some none) :=
  claim_C10_rate_store_uninitialized 1 0 (fun _ => true) 0 4
    (by decide) (Or.inr rfl)
